import Mathlib

/-!
Verification of the gostorage repository: path validation, the local-filesystem
backend, the S3 backend, and the storage router, shallowly embedded as
executable Lean definitions.  Paths are manipulated as `List Char`; the
filesystem of a local disk is an association list from normalized paths to file
contents; the S3 bucket is an association list from object keys to objects.
-/

deriving instance DecidableEq for Except

/-- Splits a character list on the separator character, like
`strings.Split(s, sep)`: `"a//b"` becomes `["a", "", "b"]`. -/
def splitSegs : List Char → List (List Char)
  | [] => [[]]
  | c :: t =>
    let r := splitSegs t
    if c = '/' then [] :: r
    else
      match r with
      | [] => [[c]]
      | h :: t2 => (c :: h) :: t2

/-- Joins segments with the `/` separator, the inverse of `splitSegs`. -/
def joinSegs : List (List Char) → List Char
  | [] => []
  | [s] => s
  | s :: rest => s ++ '/' :: joinSegs rest

/-- Stack loop of the lexical path-cleaning algorithm of Go `path.Clean`
(Unix rules, as used by `filepath.Clean` on Linux): empty and `.` segments are
dropped; a `..` segment pops a previous real segment, is dropped at the root of
a rooted path, and is kept for a relative path that has nothing left to pop.
The accumulating stack is kept reversed. -/
def cleanLoop (rooted : Bool) : List (List Char) → List (List Char) → List (List Char)
  | stack, [] => stack
  | stack, seg :: rest =>
    if seg = [] ∨ seg = ['.'] then cleanLoop rooted stack rest
    else if seg = ['.', '.'] then
      match stack with
      | [] => if rooted then cleanLoop rooted [] rest else cleanLoop rooted [['.', '.']] rest
      | top :: stk =>
        if top = ['.', '.'] then cleanLoop rooted (['.', '.'] :: top :: stk) rest
        else cleanLoop rooted stk rest
    else cleanLoop rooted (seg :: stack) rest

/-- Port of Go `filepath.Clean` (Unix rules) on character lists: lexically
normalizes a path, collapsing `.` and `..` segments, returning `.` for an
empty result and keeping the leading `/` of a rooted path. -/
def goCleanL (p : List Char) : List Char :=
  if p = [] then ['.']
  else
    let rooted := p.head? = some '/'
    let stack := (cleanLoop rooted [] (splitSegs p)).reverse
    let body := joinSegs stack
    if rooted then '/' :: body
    else if body = [] then ['.'] else body

/-- Whether `pat` occurs as a contiguous subsequence of `s`, like
`strings.Contains`. -/
def containsSub (pat : List Char) : List Char → Bool
  | [] => pat.isEmpty
  | c :: t => pat.isPrefixOf (c :: t) || containsSub pat t

/-- Port of the two `strings.TrimPrefix` calls of `ValidatePath` and
`ValidatePrefix`: removes one leading `/`, then one leading `\`. -/
def trimLeadingSepsL (s : List Char) : List Char :=
  let s1 := if s.head? = some '/' then s.tail else s
  if s1.head? = some '\\' then s1.tail else s1

/-- Which check of the path validator failed. -/
inductive ValErr where
  | emptyPath
  | traversal
  | nullByte
deriving DecidableEq

/-- Port of `ValidatePath` (validate.go): rejects the empty path, cleans the
path, rejects a cleaned path that starts with `..` or contains `/../`, strips
one leading `/` and one leading `\`, and rejects a result containing a null
byte. -/
def ValidatePath (path : String) : Except ValErr String :=
  if path = "" then .error .emptyPath
  else
    let cleaned := goCleanL path.data
    if List.isPrefixOf ['.', '.'] cleaned ∨ containsSub ['/', '.', '.', '/'] cleaned then
      .error .traversal
    else
      let cleaned2 := trimLeadingSepsL cleaned
      if cleaned2.any (fun c => c = Char.ofNat 0) then .error .nullByte
      else .ok (String.mk cleaned2)

/-- Port of `ValidatePrefix` (validate.go): the empty string is valid and
yields the empty normalized form; otherwise the input is cleaned, a cleaned
form starting with `..` or containing `/../` is rejected, and one leading `/`
and one leading `\` are stripped.  Unlike `ValidatePath`, there is no
null-byte check. -/
def ValidatePrefix (pre : String) : Except ValErr String :=
  if pre = "" then .ok ""
  else
    let cleaned := goCleanL pre.data
    if List.isPrefixOf ['.', '.'] cleaned ∨ containsSub ['/', '.', '.', '/'] cleaned then
      .error .traversal
    else .ok (String.mk (trimLeadingSepsL cleaned))

/-- The traversal condition of the validators, on the cleaned form of a path:
the cleaned path starts with `..` or contains `/../`. -/
def hasTraversal (p : String) : Bool :=
  List.isPrefixOf ['.', '.'] (goCleanL p.data) ∨ containsSub ['/', '.', '.', '/'] (goCleanL p.data)

/-- An S3-client error value, as surfaced by the AWS SDK: `NoSuchKey` from
GetObject/CopyObject on a missing key, `NotFound` from HeadObject. -/
inductive S3Err where
  | noSuchKey
  | notFound
deriving DecidableEq

/-- The cause wrapped inside a `PathError` (errors.go): a path-validation
failure (the `fmt.Errorf` values of validate.go, the spec's `InvalidPath`
class), the `ErrFileNotFound` sentinel, some other underlying I/O error, or a
raw S3 client error wrapped without translation. -/
inductive ErrCause where
  | validation (e : ValErr)
  | fileNotFound
  | ioErr
  | s3 (e : S3Err)
deriving DecidableEq

/-- An error returned by a storage operation: a `PathError` carrying the
operation name, the caller-supplied path and a cause, a `DiskNotFoundError`,
or a raw error returned unwrapped (as `saveMetadata` does). -/
inductive Err where
  | pathErr (op : String) (path : String) (cause : ErrCause)
  | diskNotFound (name : String)
  | rawIo
deriving DecidableEq

/-- Port of the `Metadata` struct declared in the `package gostorage`
document of src/example/main.go: content-type, byte size, last-modified
timestamp and custom string-to-string headers.  The `time.Time` timestamp is
modelled as a natural number (JSON round-trips the instant), the `int64` size
as a natural number (every size the code stores is a byte count), and the
header map as an association list. -/
structure Metadata where
  contentType : String
  size : Nat
  lastModified : Nat
  customHeaders : List (String × String)
deriving DecidableEq

/-- Contents of one file of the local backend: either raw content bytes
(written by `put`/`putStream`) or a metadata sidecar JSON document written by
`saveMetadata`.  The `Metadata` struct carries no JSON tags, so
`json.MarshalIndent` serializes all four exported fields into the sidecar and
`json.Unmarshal` restores them; `none` is the JSON document `null`, produced
by marshalling a nil `*Metadata`. -/
inductive FileData where
  | bytes (b : List Nat)
  | meta (d : Option Metadata)
deriving DecidableEq

/-- Injective stand-in for the serialized text of a string: length followed by
the character codes. -/
def encodeStr (s : String) : List Nat :=
  s.data.length :: s.data.map Char.toNat

/-- Injective stand-in for the serialized JSON text of a sidecar document
(`null`, or an indented JSON object holding all four `Metadata` fields);
distinct documents produce distinct byte sequences, as distinct JSON texts
do. -/
def encodeMetadataJson : Option Metadata → List Nat
  | none => [0]
  | some m =>
    1 :: encodeStr m.contentType ++ m.size :: m.lastModified ::
      m.customHeaders.length :: m.customHeaders.flatMap (fun p => encodeStr p.1 ++ encodeStr p.2)

/-- The byte content of a file as `os.ReadFile` returns it. -/
def readBytes : FileData → List Nat
  | .bytes b => b
  | .meta d => encodeMetadataJson d

/-- The state of a local disk's root directory: an association list from
normalized relative path to file contents.  Directories are implicit: a
directory exists exactly when some file lives strictly below it. -/
abbrev FS := List (String × FileData)

/-- The strict ancestor directories of a path: for `a/b/c` these are `a` and
`a/b`. -/
def segAncestors (p : String) : List String :=
  let segs := splitSegs p.data
  (List.range (segs.length - 1)).map (fun i => String.mk (joinSegs (segs.take (i + 1))))

/-- Deduplication keeping the first occurrence of each element. -/
def dedupFirst : List String → List String
  | [] => []
  | x :: t => x :: (dedupFirst t).filter (fun y => y ≠ x)

/-- The directories that exist in a filesystem state: every strict ancestor of
an existing file. -/
def dirsOf (fs : FS) : List String :=
  dedupFirst (fs.flatMap (fun e => segAncestors e.1))

/-- Replaces the binding of `k`, keeping other bindings. -/
def fsInsert (fs : FS) (k : String) (v : FileData) : FS :=
  (k, v) :: fs.filter (fun e => e.1 ≠ k)

/-- Removes the binding of `k`. -/
def fsErase (fs : FS) (k : String) : FS :=
  fs.filter (fun e => e.1 ≠ k)

/-- Association-list lookup of the binding of key `k`, as the Go map/file
lookups are modelled. -/
def lookupKey {A : Type} (k : String) : List (String × A) → Option A
  | [] => none
  | e :: t => if e.1 = k then some e.2 else lookupKey k t

/-- Models `os.MkdirAll(filepath.Dir(root/vp))` followed by
`os.WriteFile(root/vp)`: `none` is an I/O failure — `MkdirAll` fails when a
strict ancestor of `vp` is an existing file, and `WriteFile` fails when `vp`
is the root itself (`""` or `.`) or an existing directory.  Removing or
overwriting the root directory itself is modelled as an I/O error. -/
def fsWrite (fs : FS) (vp : String) (v : FileData) : Option FS :=
  if (segAncestors vp).any (fun a => (lookupKey a fs).isSome) then none
  else if vp = "" ∨ vp = "." ∨ vp ∈ dirsOf fs then none
  else some (fsInsert fs vp v)

/-- Port of `LocalDisk.put`: validates the path, creates missing parent
directories, and writes the full content, replacing any existing content. -/
def LocalDisk.put (fs : FS) (path : String) (content : List Nat) : Except Err FS :=
  match ValidatePath path with
  | .error e => .error (.pathErr "put" path (.validation e))
  | .ok vp =>
    match fsWrite fs vp (.bytes content) with
    | none => .error (.pathErr "put" path .ioErr)
    | some fs2 => .ok fs2

/-- Port of `LocalDisk.get`: validates the path and reads the full content;
`os.ErrNotExist` is translated to `ErrFileNotFound`, while reading the root or
a directory is a plain I/O error. -/
def LocalDisk.get (fs : FS) (path : String) : Except Err (List Nat) :=
  match ValidatePath path with
  | .error e => .error (.pathErr "get" path (.validation e))
  | .ok vp =>
    match lookupKey vp fs with
    | some fd => .ok (readBytes fd)
    | none =>
      if vp = "" ∨ vp = "." ∨ vp ∈ dirsOf fs then .error (.pathErr "get" path .ioErr)
      else .error (.pathErr "get" path .fileNotFound)

/-- Port of `LocalDisk.delete`: validates the path and removes the file;
`os.ErrNotExist` is translated to `ErrFileNotFound`, while removing a
non-empty directory (or the root) is a plain I/O error. -/
def LocalDisk.delete (fs : FS) (path : String) : Except Err FS :=
  match ValidatePath path with
  | .error e => .error (.pathErr "delete" path (.validation e))
  | .ok vp =>
    match lookupKey vp fs with
    | some _ => .ok (fsErase fs vp)
    | none =>
      if vp = "" ∨ vp = "." ∨ vp ∈ dirsOf fs then .error (.pathErr "delete" path .ioErr)
      else .error (.pathErr "delete" path .fileNotFound)

/-- Port of `LocalDisk.saveMetadata`: writes the sidecar file at
`validPath + ".metadata.json"`, marshalling the (possibly nil) metadata
pointer to JSON; its errors are returned unwrapped. -/
def LocalDisk.saveMetadata (fs : FS) (validPath : String) (m : Option Metadata) : Except Err FS :=
  match fsWrite fs (validPath ++ ".metadata.json") (.meta m) with
  | none => .error .rawIo
  | some fs2 => .ok fs2

/-- Port of `LocalDisk.putStream` with the reader's bytes passed by value:
validates the path, writes the streamed content, and, when metadata is
supplied, saves the sidecar, propagating its error unwrapped. -/
def LocalDisk.putStream (fs : FS) (path : String) (content : List Nat) (m : Option Metadata) :
    Except Err FS :=
  match ValidatePath path with
  | .error e => .error (.pathErr "putStream" path (.validation e))
  | .ok vp =>
    match fsWrite fs vp (.bytes content) with
    | none => .error (.pathErr "putStream" path .ioErr)
    | some fs2 =>
      match m with
      | none => .ok fs2
      | some md => LocalDisk.saveMetadata fs2 vp (some md)

/-- Port of `LocalDisk.getStream`, with the returned reader modelled by the
byte sequence it would deliver. -/
def LocalDisk.getStream (fs : FS) (path : String) : Except Err (List Nat) :=
  match ValidatePath path with
  | .error e => .error (.pathErr "getStream" path (.validation e))
  | .ok vp =>
    match lookupKey vp fs with
    | some fd => .ok (readBytes fd)
    | none =>
      if vp = "" ∨ vp = "." ∨ vp ∈ dirsOf fs then .error (.pathErr "getStream" path .ioErr)
      else .error (.pathErr "getStream" path .fileNotFound)

/-- Port of `LocalDisk.exists`: validates the path and stats it; a stat on a
file, a directory or the root succeeds, `os.ErrNotExist` becomes `false`. -/
def LocalDisk.exists (fs : FS) (path : String) : Except Err Bool :=
  match ValidatePath path with
  | .error e => .error (.pathErr "exists" path (.validation e))
  | .ok vp =>
    if (lookupKey vp fs).isSome ∨ vp = "" ∨ vp = "." ∨ vp ∈ dirsOf fs then .ok true
    else .ok false

/-- Port of `LocalDisk.size`: validates the path and stats it, returning the
byte length; `os.ErrNotExist` is translated to `ErrFileNotFound`.  The size a
stat reports for a directory is filesystem-dependent and modelled as 0. -/
def LocalDisk.size (fs : FS) (path : String) : Except Err Nat :=
  match ValidatePath path with
  | .error e => .error (.pathErr "size" path (.validation e))
  | .ok vp =>
    match lookupKey vp fs with
    | some fd => .ok (readBytes fd).length
    | none =>
      if vp = "" ∨ vp = "." ∨ vp ∈ dirsOf fs then .ok 0
      else .error (.pathErr "size" path .fileNotFound)

/-- Port of `LocalDisk.getMetadata`: validates the path and reads the sidecar
at `validPath + ".metadata.json"`; a missing sidecar is "no metadata", not an
error.  Unmarshalling a stored JSON object restores all four `Metadata`
fields; unmarshalling the JSON document `null` leaves the zero `Metadata`
value, which is returned as a non-nil pointer; a sidecar holding arbitrary
raw bytes is modelled as failing to unmarshal. -/
def LocalDisk.getMetadata (fs : FS) (path : String) : Except Err (Option Metadata) :=
  match ValidatePath path with
  | .error e => .error (.pathErr "getMetadata" path (.validation e))
  | .ok vp =>
    match lookupKey (vp ++ ".metadata.json") fs with
    | some (.meta none) => .ok (some ⟨"", 0, 0, []⟩)
    | some (.meta (some m)) => .ok (some m)
    | some (.bytes _) => .error (.pathErr "getMetadata" path .ioErr)
    | none =>
      if (vp ++ ".metadata.json") ∈ dirsOf fs then .error (.pathErr "getMetadata" path .ioErr)
      else .ok none

/-- Port of `LocalDisk.putWithMetadata`: writes the content via `put`,
re-validates the path, then saves the sidecar — also when the metadata
pointer is nil, in which case the sidecar holds the JSON document `null`. -/
def LocalDisk.putWithMetadata (fs : FS) (path : String) (content : List Nat)
    (m : Option Metadata) : Except Err FS :=
  match LocalDisk.put fs path content with
  | .error e => .error e
  | .ok fs2 =>
    match ValidatePath path with
    | .error e => .error (.pathErr "putWithMetadata" path (.validation e))
    | .ok vp => LocalDisk.saveMetadata fs2 vp m

/-- Port of `LocalDisk.setMetadata`: validates the path, stats the target
(translating `os.ErrNotExist` into `ErrFileNotFound`), then saves the
sidecar, returning `saveMetadata` errors unwrapped. -/
def LocalDisk.setMetadata (fs : FS) (path : String) (m : Option Metadata) : Except Err FS :=
  match ValidatePath path with
  | .error e => .error (.pathErr "setMetadata" path (.validation e))
  | .ok vp =>
    if (lookupKey vp fs).isSome ∨ vp = "" ∨ vp = "." ∨ vp ∈ dirsOf fs then
      LocalDisk.saveMetadata fs vp m
    else .error (.pathErr "setMetadata" path .fileNotFound)

/-- Port of `LocalDisk.copy`: validates both paths, reads the source through
`get` (with the already-validated source path), fetches source metadata
ignoring any error, and writes the destination via `putWithMetadata` when
metadata was found, else via `put`. -/
def LocalDisk.copy (fs : FS) (sourcePath destPath : String) : Except Err FS :=
  match ValidatePath sourcePath with
  | .error e => .error (.pathErr "copy" sourcePath (.validation e))
  | .ok vs =>
    match ValidatePath destPath with
    | .error e => .error (.pathErr "copy" destPath (.validation e))
    | .ok vd =>
      match LocalDisk.get fs vs with
      | .error e => .error e
      | .ok content =>
        let md : Option Metadata :=
          match LocalDisk.getMetadata fs vs with
          | .ok m => m
          | .error _ => none
        match md with
        | some m => LocalDisk.putWithMetadata fs vd content (some m)
        | none => LocalDisk.put fs vd content

/-- Port of `LocalDisk.move`: copy, then delete the source. -/
def LocalDisk.move (fs : FS) (sourcePath destPath : String) : Except Err FS :=
  match LocalDisk.copy fs sourcePath destPath with
  | .error e => .error e
  | .ok fs2 => LocalDisk.delete fs2 sourcePath

/-- Port of the `FileInfo` struct declared in the `package gostorage`
document of src/example/main.go: path, size, last-modified timestamp,
directory flag, and the optional embedded metadata.  `LocalDisk.list`
constructs its entries without the metadata field, leaving the nil pointer;
the state model does not track file modification times, so the walk reports
every timestamp as 0. -/
structure FileInfo where
  path : String
  size : Nat
  lastModified : Nat
  isDir : Bool
  metadata : Option Metadata
deriving DecidableEq

/-- The nodes of a filesystem state, directories first: each implied
directory (with size 0) followed by each file with its byte length. -/
def nodesOf (fs : FS) : List (String × Nat × Bool) :=
  (dirsOf fs).map (fun d => (d, 0, true)) ++ fs.map (fun e => (e.1, (readBytes e.2).length, false))

/-- Port of `filepath.Walk(filepath.Join(root, vp))` restricted to what `list`
observes: the walk visits the base itself first (the root directory, a file,
or an implied directory) and then, for a directory base, every node strictly
below it; a nonexistent base yields no visits (the walk callback swallows the
error).  Each visit is reported with its root-relative path. -/
def walkNodes (fs : FS) (vp : String) : List (String × Nat × Bool) :=
  let base := if vp = "" ∨ vp = "." then "" else vp
  if base = "" then ("", 0, true) :: nodesOf fs
  else
    match lookupKey base fs with
    | some fd => [(base, (readBytes fd).length, false)]
    | none =>
      if base ∈ dirsOf fs then
        (base, 0, true) :: (nodesOf fs).filter (fun n => (base ++ "/").data.isPrefixOf n.1.data)
      else []

/-- Port of `LocalDisk.list`: validates the prefix, walks the joined search
path, skips the entry whose relative path is `.` (the disk root) and every
path ending in the `.metadata.json` sidecar suffix, and returns the rest as
`FileInfo` entries. -/
def LocalDisk.list (fs : FS) (pre : String) : Except Err (List FileInfo) :=
  match ValidatePrefix pre with
  | .error e => .error (.pathErr "list" pre (.validation e))
  | .ok vp =>
    .ok ((walkNodes fs vp).filterMap (fun n =>
      let rel := if n.1 = "" then "." else n.1
      if rel = "." then none
      else if (".metadata.json").data.isSuffixOf rel.data then none
      else some ⟨rel, n.2.1, 0, n.2.2, none⟩))

/-- The S3 configuration fields that affect key mapping; `pre` is the
`Prefix` field (optional key prefix for multi-tenancy). -/
structure S3Config where
  pre : String
deriving DecidableEq

/-- One stored S3 object: content bytes plus its native metadata attributes. -/
structure S3Object where
  content : List Nat
  contentType : String
  meta : List (String × String)
deriving DecidableEq

/-- The state of an S3 bucket: an association list from object key to
object. -/
abbrev S3State := List (String × S3Object)

/-- Removes one trailing occurrence of `suf`, like `strings.TrimSuffix`. -/
def trimSuffixStr (s suf : String) : String :=
  if suf.data.isSuffixOf s.data then String.mk (s.data.take (s.data.length - suf.data.length))
  else s

/-- Removes one leading occurrence of `pre`, like `strings.TrimPrefix`. -/
def trimPrefixStr (s pre : String) : String :=
  if pre.data.isPrefixOf s.data then String.mk (s.data.drop pre.data.length) else s

/-- Port of `S3Disk.buildKey`: prepends the configured key prefix, if any. -/
def S3Disk.buildKey (cfg : S3Config) (path : String) : String :=
  if cfg.pre = "" then path
  else trimSuffixStr cfg.pre "/" ++ "/" ++ trimPrefixStr path "/"

/-- Replaces the binding of key `k` in a bucket. -/
def s3Insert (s3 : S3State) (k : String) (v : S3Object) : S3State :=
  (k, v) :: s3.filter (fun e => e.1 ≠ k)

/-- Port of `S3Disk.put`: validates the path and issues a PutObject, which
overwrites any existing object. -/
def S3Disk.put (cfg : S3Config) (s3 : S3State) (path : String) (content : List Nat) :
    Except Err S3State :=
  match ValidatePath path with
  | .error e => .error (.pathErr "put" path (.validation e))
  | .ok vp => .ok (s3Insert s3 (S3Disk.buildKey cfg vp) ⟨content, "", []⟩)

/-- Port of `S3Disk.get`: validates the path and issues a GetObject; the
`NoSuchKey` error of a missing key is translated to `ErrFileNotFound`. -/
def S3Disk.get (cfg : S3Config) (s3 : S3State) (path : String) : Except Err (List Nat) :=
  match ValidatePath path with
  | .error e => .error (.pathErr "get" path (.validation e))
  | .ok vp =>
    match lookupKey (S3Disk.buildKey cfg vp) s3 with
    | some o => .ok o.content
    | none => .error (.pathErr "get" path .fileNotFound)

/-- Port of `S3Disk.delete`: validates the path and issues a DeleteObject.
AWS S3's DeleteObject reports success also when the key does not exist, and
the code checks for no not-found condition, so deletion of a missing object
silently succeeds. -/
def S3Disk.delete (cfg : S3Config) (s3 : S3State) (path : String) : Except Err S3State :=
  match ValidatePath path with
  | .error e => .error (.pathErr "delete" path (.validation e))
  | .ok vp => .ok (s3.filter (fun e => e.1 ≠ S3Disk.buildKey cfg vp))

/-- Port of `S3Disk.putStream` with the reader's bytes passed by value:
validates the path and issues a PutObject carrying the optional metadata as
native object attributes. -/
def S3Disk.putStream (cfg : S3Config) (s3 : S3State) (path : String) (content : List Nat)
    (m : Option Metadata) : Except Err S3State :=
  match ValidatePath path with
  | .error e => .error (.pathErr "putStream" path (.validation e))
  | .ok vp =>
    let ct := match m with | some md => md.contentType | none => ""
    let hs := match m with | some md => md.customHeaders | none => []
    .ok (s3Insert s3 (S3Disk.buildKey cfg vp) ⟨content, ct, hs⟩)

/-- Port of `S3Disk.getStream`, with the returned reader modelled by the byte
sequence it would deliver; `NoSuchKey` is translated to `ErrFileNotFound`. -/
def S3Disk.getStream (cfg : S3Config) (s3 : S3State) (path : String) : Except Err (List Nat) :=
  match ValidatePath path with
  | .error e => .error (.pathErr "getStream" path (.validation e))
  | .ok vp =>
    match lookupKey (S3Disk.buildKey cfg vp) s3 with
    | some o => .ok o.content
    | none => .error (.pathErr "getStream" path .fileNotFound)

/-- Port of `S3Disk.exists`: validates the path and issues a HeadObject; the
not-found errors become `false`, not an error. -/
def S3Disk.exists (cfg : S3Config) (s3 : S3State) (path : String) : Except Err Bool :=
  match ValidatePath path with
  | .error e => .error (.pathErr "exists" path (.validation e))
  | .ok vp => .ok (lookupKey (S3Disk.buildKey cfg vp) s3).isSome

/-- Port of `S3Disk.size`: validates the path and issues a HeadObject,
returning the content length; not-found errors are translated to
`ErrFileNotFound`. -/
def S3Disk.size (cfg : S3Config) (s3 : S3State) (path : String) : Except Err Nat :=
  match ValidatePath path with
  | .error e => .error (.pathErr "size" path (.validation e))
  | .ok vp =>
    match lookupKey (S3Disk.buildKey cfg vp) s3 with
    | some o => .ok o.content.length
    | none => .error (.pathErr "size" path .fileNotFound)

/-- Port of `S3Disk.copy`: validates both paths and issues a CopyObject,
which duplicates the object together with its attributes.  A CopyObject whose
source key does not exist fails with `NoSuchKey`, and the code wraps that
error as-is, without translating it to `ErrFileNotFound`. -/
def S3Disk.copy (cfg : S3Config) (s3 : S3State) (sourcePath destPath : String) :
    Except Err S3State :=
  match ValidatePath sourcePath with
  | .error e => .error (.pathErr "copy" sourcePath (.validation e))
  | .ok vs =>
    match ValidatePath destPath with
    | .error e => .error (.pathErr "copy" destPath (.validation e))
    | .ok vd =>
      match lookupKey (S3Disk.buildKey cfg vs) s3 with
      | none => .error (.pathErr "copy" sourcePath (.s3 .noSuchKey))
      | some o => .ok (s3Insert s3 (S3Disk.buildKey cfg vd) o)

/-- Port of `S3Disk.move`: copy, then delete the source. -/
def S3Disk.move (cfg : S3Config) (s3 : S3State) (sourcePath destPath : String) :
    Except Err S3State :=
  match S3Disk.copy cfg s3 sourcePath destPath with
  | .error e => .error e
  | .ok s3' => S3Disk.delete cfg s3' sourcePath

/-- Port of `S3Disk.putWithMetadata`: validates the path and issues a
PutObject carrying the metadata as native object attributes. -/
def S3Disk.putWithMetadata (cfg : S3Config) (s3 : S3State) (path : String) (content : List Nat)
    (m : Option Metadata) : Except Err S3State :=
  match ValidatePath path with
  | .error e => .error (.pathErr "putWithMetadata" path (.validation e))
  | .ok vp =>
    let ct := match m with | some md => md.contentType | none => ""
    let hs := match m with | some md => md.customHeaders | none => []
    .ok (s3Insert s3 (S3Disk.buildKey cfg vp) ⟨content, ct, hs⟩)

/-- Port of `S3Disk.getMetadata`: validates the path and issues a HeadObject;
not-found errors are translated to `ErrFileNotFound`, and a successful head
always yields a non-nil `Metadata` (the last-modified timestamp is modelled
as 0). -/
def S3Disk.getMetadata (cfg : S3Config) (s3 : S3State) (path : String) :
    Except Err (Option Metadata) :=
  match ValidatePath path with
  | .error e => .error (.pathErr "getMetadata" path (.validation e))
  | .ok vp =>
    match lookupKey (S3Disk.buildKey cfg vp) s3 with
    | some o => .ok (some ⟨o.contentType, o.content.length, 0, o.meta⟩)
    | none => .error (.pathErr "getMetadata" path .fileNotFound)

/-- Port of `S3Disk.setMetadata`: validates the path and issues a CopyObject
of the key onto itself with the replace-metadata directive.  When the key
does not exist, CopyObject fails with `NoSuchKey`, and the code wraps that
raw error without translating it to `ErrFileNotFound`. -/
def S3Disk.setMetadata (cfg : S3Config) (s3 : S3State) (path : String) (m : Option Metadata) :
    Except Err S3State :=
  match ValidatePath path with
  | .error e => .error (.pathErr "setMetadata" path (.validation e))
  | .ok vp =>
    let key := S3Disk.buildKey cfg vp
    match lookupKey key s3 with
    | none => .error (.pathErr "setMetadata" path (.s3 .noSuchKey))
    | some o =>
      let ct := match m with | some md => md.contentType | none => ""
      let hs := match m with | some md => md.customHeaders | none => []
      .ok (s3Insert s3 key ⟨o.content, ct, hs⟩)

/-- One registered backend instance, as held behind the `Disk` interface
declared in the `package gostorage` document of src/example/main.go: a local
filesystem disk, or an S3 disk together with its configuration. -/
inductive DiskState where
  | localDisk (fs : FS)
  | s3Disk (cfg : S3Config) (st : S3State)
deriving DecidableEq

/-- `Disk` interface dispatch of `get`: the router calls the method of
whichever backend implements the registered disk. -/
def Disk.get : DiskState → String → Except Err (List Nat)
  | .localDisk fs, p => LocalDisk.get fs p
  | .s3Disk cfg st, p => S3Disk.get cfg st p

/-- `Disk` interface dispatch of `getMetadata`. -/
def Disk.getMetadata : DiskState → String → Except Err (Option Metadata)
  | .localDisk fs, p => LocalDisk.getMetadata fs p
  | .s3Disk cfg st, p => S3Disk.getMetadata cfg st p

/-- `Disk` interface dispatch of `put`; the backend state is returned
updated, since the Go methods mutate the receiver's backing store. -/
def Disk.put : DiskState → String → List Nat → Except Err DiskState
  | .localDisk fs, p, b => (LocalDisk.put fs p b).map .localDisk
  | .s3Disk cfg st, p, b => (S3Disk.put cfg st p b).map (.s3Disk cfg)

/-- `Disk` interface dispatch of `putWithMetadata`. -/
def Disk.putWithMetadata : DiskState → String → List Nat → Option Metadata → Except Err DiskState
  | .localDisk fs, p, b, m => (LocalDisk.putWithMetadata fs p b m).map .localDisk
  | .s3Disk cfg st, p, b, m => (S3Disk.putWithMetadata cfg st p b m).map (.s3Disk cfg)

/-- The storage router's disk registry: an association list from disk name to
the registered backend instance (local or S3). -/
abbrev Storage := List (String × DiskState)

/-- Port of `Storage.getDisk`: the map lookup, `none` for an unregistered
name. -/
def Storage.getDisk (s : Storage) (name : String) : Option DiskState :=
  lookupKey name s

/-- Replaces the instance bound to disk `name`. -/
def Storage.setDisk (s : Storage) (name : String) (d : DiskState) : Storage :=
  (name, d) :: s.filter (fun e => e.1 ≠ name)

/-- Port of `Storage.CopyBetweenDisks`: resolves both disk names (failing
fast with `DiskNotFoundError`), reads the full content from the source
backend, reads the source metadata discarding any error, and writes the
destination backend via `putWithMetadata` when metadata was retrieved, else
via `put` — all through the `Disk` interface dispatch. -/
def Storage.CopyBetweenDisks (s : Storage) (sourceDisk destDisk sourcePath destPath : String) :
    Except Err Storage :=
  match Storage.getDisk s sourceDisk with
  | none => .error (.diskNotFound sourceDisk)
  | some src =>
    match Storage.getDisk s destDisk with
    | none => .error (.diskNotFound destDisk)
    | some dst =>
      match Disk.get src sourcePath with
      | .error e => .error e
      | .ok content =>
        let md : Option Metadata :=
          match Disk.getMetadata src sourcePath with
          | .ok m => m
          | .error _ => none
        match (match md with
               | some m => Disk.putWithMetadata dst destPath content (some m)
               | none => Disk.put dst destPath content) with
        | .error e => .error e
        | .ok dst' => .ok (Storage.setDisk s destDisk dst')

/-- Port of `LocalDiskConfig`: root path, create-if-missing flag, directory
and file permission modes (0 meaning "use the default"). -/
structure LocalDiskConfig where
  path : String
  createIfNotExist : Bool
  dirPermissions : Nat
  filePermissions : Nat
deriving DecidableEq

/-- The permission defaulting `NewLocalDisk` performs on its config: 0755 for
directories and 0644 for files when unset. -/
def applyPermissionDefaults (cfg : LocalDiskConfig) : LocalDiskConfig :=
  { cfg with
    dirPermissions := if cfg.dirPermissions = 0 then 0o755 else cfg.dirPermissions
    filePermissions := if cfg.filePermissions = 0 then 0o644 else cfg.filePermissions }

/-- Port of the `createIfNotExist` computation of `NewLocalDisk`: the local
variable starts as the configured flag and is set to `true` whenever the
configured flag is `false`. -/
def effectiveCreateIfNotExist (cfg : LocalDiskConfig) : Bool :=
  let c := cfg.createIfNotExist
  if cfg.createIfNotExist = false then true else c

/-- Outcome of constructing a local disk: an error (bad config, a failing
`os.MkdirAll`, or a failing verification), the create-the-root branch
completing, or the verify-the-root branch completing. -/
inductive MkResult where
  | configError (msg : String)
  | created (effCfg : LocalDiskConfig)
  | verified (effCfg : LocalDiskConfig)
deriving DecidableEq

/-- Port of `NewLocalDisk`, with the environment abstracted by whether the
configured root path exists and whether it is a directory: rejects a nil
config and an empty path, applies permission defaults, computes the effective
create-if-missing flag, and takes the create branch when it is set, else the
verify branch.  The create branch issues `os.MkdirAll`, which succeeds when
the root is missing or already a directory but fails (ENOTDIR) when the root
exists as a non-directory; the verify branch stats the root and fails when it
is missing or not a directory. -/
def NewLocalDisk (cfg? : Option LocalDiskConfig) (rootExists rootIsDir : Bool) : MkResult :=
  match cfg? with
  | none => .configError "LocalDiskConfig cannot be nil"
  | some cfg =>
    if cfg.path = "" then .configError "path is required"
    else
      let eff := applyPermissionDefaults cfg
      if effectiveCreateIfNotExist cfg then
        if rootExists = true ∧ rootIsDir = false then .configError "mkdir: not a directory"
        else .created eff
      else if rootExists = false then .configError "stat"
      else if rootIsDir = false then .configError "path exists but is not a directory"
      else .verified eff

/-- A path whose cleaned form triggers the traversal check is rejected by
`ValidatePath`. -/
theorem ValidatePath_of_traversal {p : String} (hp : p ≠ "") (ht : hasTraversal p = true) :
    ValidatePath p = .error .traversal := by
  have ht2 : List.isPrefixOf ['.', '.'] (goCleanL p.data) = true ∨
      containsSub ['/', '.', '.', '/'] (goCleanL p.data) = true := by
    unfold hasTraversal at ht
    simpa using ht
  simp only [ValidatePath]
  rw [if_neg hp, if_pos ht2]

/-- Filtering out the bindings of one key does not change lookups of another
key. -/
theorem lookupKey_filter_of_ne {A : Type} {k k' : String} (l : List (String × A)) (h : k' ≠ k) :
    lookupKey k' (l.filter (fun e => e.1 ≠ k)) = lookupKey k' l := by
  have hkk : ¬ k = k' := fun hh => h hh.symm
  induction l with
  | nil => rfl
  | cons e t ih =>
    simp only [ne_eq, decide_not] at ih ⊢
    by_cases he : e.1 = k
    · simp [List.filter_cons, he, lookupKey, hkk, ih]
    · by_cases hk : e.1 = k'
      · simp [List.filter_cons, he, lookupKey, hk, h]
      · simp [List.filter_cons, he, lookupKey, hk, ih]

/-- Filtering out the bindings of `k` removes them all. -/
theorem lookupKey_filter_self {A : Type} (k : String) (l : List (String × A)) :
    lookupKey k (l.filter (fun e => e.1 ≠ k)) = none := by
  induction l with
  | nil => rfl
  | cons e t ih =>
    simp only [ne_eq, decide_not] at ih ⊢
    by_cases he : e.1 = k
    · simp [List.filter_cons, he, ih]
    · simp [List.filter_cons, he, lookupKey, ih]

/-- Looking up the freshly inserted key returns the new value. -/
theorem lookupKey_fsInsert_self (fs : FS) (k : String) (v : FileData) :
    lookupKey k (fsInsert fs k v) = some v := by
  simp [fsInsert, lookupKey]

/-- Looking up another key is unchanged by an insertion. -/
theorem lookupKey_fsInsert_of_ne (fs : FS) {k k' : String} (v : FileData) (h : k' ≠ k) :
    lookupKey k' (fsInsert fs k v) = lookupKey k' fs := by
  have hne : ¬ k = k' := fun hh => h hh.symm
  simp only [fsInsert, lookupKey, hne, if_false]
  exact lookupKey_filter_of_ne fs h

/-- Membership in a first-kept deduplication is membership in the original
list. -/
theorem mem_dedupFirst {a : String} {l : List String} : a ∈ dedupFirst l ↔ a ∈ l := by
  induction l with
  | nil => simp [dedupFirst]
  | cons x t ih =>
    simp only [dedupFirst, List.mem_cons]
    constructor
    · intro h
      cases h with
      | inl h => exact Or.inl h
      | inr h => exact Or.inr (ih.mp (List.mem_of_mem_filter h))
    · intro h
      cases h with
      | inl h => exact Or.inl h
      | inr h =>
        by_cases hax : a = x
        · exact Or.inl hax
        · refine Or.inr (List.mem_filter.mpr ⟨ih.mpr h, ?_⟩)
          simpa using hax

/-- A directory exists exactly when it is a strict ancestor of some stored
file. -/
theorem mem_dirsOf {d : String} {fs : FS} :
    d ∈ dirsOf fs ↔ ∃ e ∈ fs, d ∈ segAncestors e.1 := by
  unfold dirsOf
  rw [mem_dedupFirst]
  simp [List.mem_flatMap]

/-- Directories surviving a filter of the file list already existed. -/
theorem dirsOf_filter_subset {d : String} {fs : FS} {p : String × FileData → Bool}
    (h : d ∈ dirsOf (fs.filter p)) : d ∈ dirsOf fs := by
  rw [mem_dirsOf] at h ⊢
  obtain ⟨e, he, hd⟩ := h
  exact ⟨e, List.mem_of_mem_filter he, hd⟩

/-- A directory of an insertion result is an ancestor of the inserted key or
an already existing directory. -/
theorem dirsOf_fsInsert_cases {d : String} {fs : FS} {k : String} {v : FileData}
    (h : d ∈ dirsOf (fsInsert fs k v)) : d ∈ segAncestors k ∨ d ∈ dirsOf fs := by
  rw [mem_dirsOf] at h
  obtain ⟨e, he, hd⟩ := h
  rw [fsInsert, List.mem_cons] at he
  cases he with
  | inl he => left; rw [he] at hd; exact hd
  | inr he => right; rw [mem_dirsOf]; exact ⟨e, List.mem_of_mem_filter he, hd⟩

/-- `splitSegs` never returns the empty list of segments. -/
theorem splitSegs_ne_nil (xs : List Char) : splitSegs xs ≠ [] := by
  induction xs with
  | nil => simp [splitSegs]
  | cons c t ih =>
    simp only [splitSegs]
    by_cases hc : c = '/'
    · simp [hc]
    · simp only [hc, if_false]
      cases h : splitSegs t with
      | nil => exact absurd h ih
      | cons a b => simp

/-- Joining the segments of a split returns the original characters. -/
theorem joinSegs_splitSegs (xs : List Char) : joinSegs (splitSegs xs) = xs := by
  induction xs with
  | nil => rfl
  | cons c t ih =>
    simp only [splitSegs]
    by_cases hc : c = '/'
    · simp only [hc, if_true]
      cases h : splitSegs t with
      | nil => exact absurd h (splitSegs_ne_nil t)
      | cons a b =>
        rw [h] at ih
        simp [joinSegs, ih]
    · simp only [hc, if_false]
      cases h : splitSegs t with
      | nil => exact absurd h (splitSegs_ne_nil t)
      | cons a b =>
        rw [h] at ih
        cases b with
        | nil =>
          simp only [joinSegs] at ih
          simp [joinSegs, ih]
        | cons a2 b2 =>
          simp only [joinSegs] at ih ⊢
          rw [← ih]
          simp

/-- Length of a join of two nonempty segment lists: both bodies plus the
separator. -/
theorem joinSegs_append_length (l1 l2 : List (List Char)) (h1 : l1 ≠ []) (h2 : l2 ≠ []) :
    (joinSegs (l1 ++ l2)).length = (joinSegs l1).length + 1 + (joinSegs l2).length := by
  induction l1 with
  | nil => exact absurd rfl h1
  | cons x t ih =>
    cases t with
    | nil =>
      cases l2 with
      | nil => exact absurd rfl h2
      | cons y t2 =>
        simp only [List.cons_append, List.nil_append, joinSegs, List.length_append,
          List.length_cons]
        omega
    | cons x2 t2 =>
      have step := ih (by simp)
      simp only [List.cons_append] at step ⊢
      simp only [joinSegs, List.length_append, List.length_cons] at step ⊢
      omega

/-- A strict ancestor of a path is strictly shorter than the path. -/
theorem length_lt_of_mem_segAncestors {a p : String} (h : a ∈ segAncestors p) :
    a.data.length < p.data.length := by
  unfold segAncestors at h
  simp only [List.mem_map, List.mem_range] at h
  obtain ⟨i, hi, ha⟩ := h
  have hsplit : p.data = joinSegs (splitSegs p.data) := (joinSegs_splitSegs p.data).symm
  have hdecomp : splitSegs p.data =
      (splitSegs p.data).take (i + 1) ++ (splitSegs p.data).drop (i + 1) :=
    (List.take_append_drop (i + 1) (splitSegs p.data)).symm
  have hlen : i + 1 < (splitSegs p.data).length := by omega
  have htake : (splitSegs p.data).take (i + 1) ≠ [] := by
    intro hnil
    have : (splitSegs p.data).length = 0 ∨ i + 1 = 0 := by
      have := congrArg List.length hnil
      simp only [List.length_take, List.length_nil] at this
      omega
    omega
  have hdrop : (splitSegs p.data).drop (i + 1) ≠ [] := by
    intro hnil
    have := congrArg List.length hnil
    simp only [List.length_drop, List.length_nil] at this
    omega
  have hlen2 := joinSegs_append_length _ _ htake hdrop
  rw [← hdecomp] at hlen2
  have hadata : a.data = joinSegs ((splitSegs p.data).take (i + 1)) := by
    rw [← ha]
  have hplen : p.data.length = (joinSegs ((splitSegs p.data).take (i + 1))).length + 1 +
      (joinSegs ((splitSegs p.data).drop (i + 1))).length := by
    conv_lhs => rw [hsplit]
    exact hlen2
  rw [hadata, hplen]
  omega

/-- Appending character data of strings. -/
theorem string_append_data (a b : String) : (a ++ b).data = a.data ++ b.data := by
  cases a
  cases b
  rfl

/-- A path is not its own strict ancestor. -/
theorem not_self_mem_segAncestors (p : String) : p ∉ segAncestors p := by
  intro h
  exact absurd (length_lt_of_mem_segAncestors h) (lt_irrefl _)

/-- The sidecar path of `vp` differs from `vp`. -/
theorem sidecar_ne_self (vp : String) : vp ++ ".metadata.json" ≠ vp := by
  intro h
  have := congrArg (fun s => s.data.length) h
  simp only [string_append_data, List.length_append] at this
  simp [String.data] at this

/-- The sidecar path of `vp` is longer than `vp`, hence no strict ancestor of
`vp`. -/
theorem sidecar_not_mem_segAncestors (vp : String) :
    (vp ++ ".metadata.json") ∉ segAncestors vp := by
  intro h
  have hlt := length_lt_of_mem_segAncestors h
  rw [string_append_data, List.length_append] at hlt
  omega

/-- A successful `put` passed validation and performed the write. -/
theorem put_ok_elim {fs : FS} {p : String} {b : List Nat} {fs' : FS}
    (h : LocalDisk.put fs p b = .ok fs') :
    ∃ vp, ValidatePath p = .ok vp ∧ fsWrite fs vp (.bytes b) = some fs' := by
  unfold LocalDisk.put at h
  split at h
  · exact absurd h (by simp)
  · rename_i vp hv
    split at h
    · exact absurd h (by simp)
    · rename_i fs2 hw
      simp only [Except.ok.injEq] at h
      exact ⟨vp, hv, by rw [hw, h]⟩

/-- A successful low-level write inserts the binding. -/
theorem fsWrite_some_eq {fs : FS} {vp : String} {v : FileData} {fs' : FS}
    (h : fsWrite fs vp v = some fs') : fs' = fsInsert fs vp v := by
  unfold fsWrite at h
  split at h
  · exact absurd h (by simp)
  · split at h
    · exact absurd h (by simp)
    · simpa using h.symm

/-- Round trip of the local backend: content just written by `put` is what
`get` reads back. -/
theorem put_ok_get {fs : FS} {p : String} {b : List Nat} {fs' : FS}
    (h : LocalDisk.put fs p b = .ok fs') : LocalDisk.get fs' p = .ok b := by
  obtain ⟨vp, hv, hw⟩ := put_ok_elim h
  have hfs : fs' = fsInsert fs vp (.bytes b) := fsWrite_some_eq hw
  simp only [LocalDisk.get, hv, hfs, lookupKey_fsInsert_self]
  rfl

/-- A successful `saveMetadata` inserts the sidecar binding. -/
theorem saveMetadata_ok_elim {fs : FS} {vp : String} {m : Option Metadata} {fs' : FS}
    (h : LocalDisk.saveMetadata fs vp m = .ok fs') :
    fs' = fsInsert fs (vp ++ ".metadata.json") (.meta m) := by
  unfold LocalDisk.saveMetadata at h
  split at h
  · exact absurd h (by simp)
  · rename_i fs2 hw
    simp only [Except.ok.injEq] at h
    rw [← h]
    exact fsWrite_some_eq hw

/-- Round trip through `putWithMetadata`: the sidecar write does not disturb
the content binding, so `get` reads back the written bytes. -/
theorem putWithMetadata_ok_get {fs : FS} {p : String} {b : List Nat} {m : Option Metadata}
    {fs' : FS} (h : LocalDisk.putWithMetadata fs p b m = .ok fs') :
    LocalDisk.get fs' p = .ok b := by
  unfold LocalDisk.putWithMetadata at h
  split at h
  · exact absurd h (by simp)
  · rename_i fs1 hput
    obtain ⟨vp, hv, hw⟩ := put_ok_elim hput
    rw [hv] at h
    have hfs1 : fs1 = fsInsert fs vp (.bytes b) := fsWrite_some_eq hw
    have hfs' := saveMetadata_ok_elim h
    have hne : vp ≠ vp ++ ".metadata.json" := fun hh => sidecar_ne_self vp hh.symm
    simp only [LocalDisk.get, hv, hfs', lookupKey_fsInsert_of_ne _ _ hne, hfs1,
      lookupKey_fsInsert_self]
    rfl

/-- Looking up the freshly rebound disk returns the new instance. -/
theorem getDisk_setDisk_self (s : Storage) (n : String) (d : DiskState) :
    Storage.getDisk (Storage.setDisk s n d) n = some d := by
  simp [Storage.getDisk, Storage.setDisk, lookupKey]

/-- Rebinding one disk leaves the binding of another name unchanged. -/
theorem getDisk_setDisk_ne (s : Storage) {n n' : String} (d : DiskState) (h : n' ≠ n) :
    Storage.getDisk (Storage.setDisk s n d) n' = Storage.getDisk s n' := by
  have hne : ¬ n = n' := fun hh => h hh.symm
  simp only [Storage.getDisk, Storage.setDisk, lookupKey, hne, if_false]
  exact lookupKey_filter_of_ne s h

/-- Looking up the freshly inserted bucket key returns the new object. -/
theorem lookupKey_s3Insert_self (s3 : S3State) (k : String) (v : S3Object) :
    lookupKey k (s3Insert s3 k v) = some v := by
  simp [s3Insert, lookupKey]

/-- Round trip of the S3 backend: an object just written by `put` is what
`get` reads back. -/
theorem s3_put_ok_get {cfg : S3Config} {s3 : S3State} {p : String} {b : List Nat} {s3' : S3State}
    (h : S3Disk.put cfg s3 p b = .ok s3') : S3Disk.get cfg s3' p = .ok b := by
  unfold S3Disk.put at h
  split at h
  · exact absurd h (by simp)
  · rename_i vp hv
    simp only [Except.ok.injEq] at h
    simp only [S3Disk.get, hv, ← h, lookupKey_s3Insert_self]

/-- Round trip of the S3 backend through `putWithMetadata`. -/
theorem s3_putWithMetadata_ok_get {cfg : S3Config} {s3 : S3State} {p : String} {b : List Nat}
    {m : Option Metadata} {s3' : S3State}
    (h : S3Disk.putWithMetadata cfg s3 p b m = .ok s3') : S3Disk.get cfg s3' p = .ok b := by
  unfold S3Disk.putWithMetadata at h
  split at h
  · exact absurd h (by simp)
  · rename_i vp hv
    simp only [Except.ok.injEq] at h
    simp only [S3Disk.get, hv, ← h, lookupKey_s3Insert_self]

/-- Round trip through the `Disk` interface: content just written by the
dispatched `put` is what the dispatched `get` reads back, on either
backend. -/
theorem disk_put_ok_get {d : DiskState} {p : String} {b : List Nat} {d' : DiskState}
    (h : Disk.put d p b = .ok d') : Disk.get d' p = .ok b := by
  cases d with
  | localDisk fs =>
    simp only [Disk.put, Except.map] at h
    split at h
    · exact absurd h (by simp)
    · rename_i fs2 hput
      simp only [Except.ok.injEq] at h
      rw [← h]
      exact put_ok_get hput
  | s3Disk cfg st =>
    simp only [Disk.put, Except.map] at h
    split at h
    · exact absurd h (by simp)
    · rename_i st2 hput
      simp only [Except.ok.injEq] at h
      rw [← h]
      exact s3_put_ok_get hput

/-- Round trip through the `Disk` interface for `putWithMetadata`. -/
theorem disk_putWithMetadata_ok_get {d : DiskState} {p : String} {b : List Nat}
    {m : Option Metadata} {d' : DiskState}
    (h : Disk.putWithMetadata d p b m = .ok d') : Disk.get d' p = .ok b := by
  cases d with
  | localDisk fs =>
    simp only [Disk.putWithMetadata, Except.map] at h
    split at h
    · exact absurd h (by simp)
    · rename_i fs2 hput
      simp only [Except.ok.injEq] at h
      rw [← h]
      exact putWithMetadata_ok_get hput
  | s3Disk cfg st =>
    simp only [Disk.putWithMetadata, Except.map] at h
    split at h
    · exact absurd h (by simp)
    · rename_i st2 hput
      simp only [Except.ok.injEq] at h
      rw [← h]
      exact s3_putWithMetadata_ok_get hput

/-- C3: for every valid path `p` and content bytes `b`, a successful
`put(p, b)` followed by `get(p)` returns exactly `b`.  The starting state is
arbitrary, so it may already hold content at `p`: the same theorem shows that
`put` replaces the previous content, and in the model the write itself
provides the missing intermediate containers (directories are implicit). -/
theorem C3_put_get_roundtrip (fs : FS) (p : String) (b : List Nat) (fs' : FS)
    (h : LocalDisk.put fs p b = .ok fs') : LocalDisk.get fs' p = .ok b :=
  put_ok_get h

/-- Witness for C3 at a state that already holds other content at the path:
the put replaces it and the get reads the new bytes. -/
theorem C3_put_get_roundtrip_witness :
    LocalDisk.get [("p.txt", FileData.bytes [2, 3])] "p.txt" = .ok [2, 3] :=
  C3_put_get_roundtrip [("p.txt", FileData.bytes [1])] "p.txt" [2, 3]
    [("p.txt", FileData.bytes [2, 3])] (by decide)

/-- C9: for every config with the create-if-missing flag explicitly `false`,
`NewLocalDisk` behaves as if it were `true`: the effective flag is forced
`true`, a missing root is created (the construction succeeds through the
create branch rather than failing), and the verify-that-root-exists branch is
never the outcome for any state of the root. -/
theorem C9_create_flag_forced_true (cfg : LocalDiskConfig) (rootExists rootIsDir : Bool)
    (hflag : cfg.createIfNotExist = false) (hpath : cfg.path ≠ "") :
    effectiveCreateIfNotExist cfg = true ∧
    NewLocalDisk (some cfg) false rootIsDir = .created (applyPermissionDefaults cfg) ∧
    ∀ eff, NewLocalDisk (some cfg) rootExists rootIsDir ≠ .verified eff := by
  have heff : effectiveCreateIfNotExist cfg = true := by
    simp [effectiveCreateIfNotExist, hflag]
  refine ⟨heff, by simp [NewLocalDisk, hpath, heff], ?_⟩
  intro eff hcon
  simp only [NewLocalDisk, hpath, if_false, heff, if_true] at hcon
  split at hcon
  · exact absurd hcon (by simp)
  · exact absurd hcon (by simp)

/-- Witness for C9: a config with an explicit `false` flag and a missing root
still constructs through the create branch. -/
theorem C9_create_flag_forced_true_witness :
    effectiveCreateIfNotExist ⟨"/data", false, 0, 0⟩ = true ∧
    NewLocalDisk (some ⟨"/data", false, 0, 0⟩) false false =
      .created (applyPermissionDefaults ⟨"/data", false, 0, 0⟩) :=
  ⟨(C9_create_flag_forced_true ⟨"/data", false, 0, 0⟩ false false (by decide) (by decide)).1,
   (C9_create_flag_forced_true ⟨"/data", false, 0, 0⟩ false false (by decide) (by decide)).2.1⟩

/-- C10: `putWithMetadata` with a nil metadata pointer writes a sidecar
holding the JSON document `null`, so a later `getMetadata` returns a non-nil
`Metadata` with every field empty; after a plain `put` (with no pre-existing
sidecar), `getMetadata` returns the distinguished no-metadata result. -/
theorem C10_nil_metadata_sidecar :
    (∀ (fs : FS) (p : String) (b : List Nat) (fs' : FS),
      LocalDisk.putWithMetadata fs p b none = .ok fs' →
      LocalDisk.getMetadata fs' p = .ok (some ⟨"", 0, 0, []⟩)) ∧
    (∀ (fs : FS) (p vp : String) (b : List Nat) (fs' : FS),
      ValidatePath p = .ok vp →
      lookupKey (vp ++ ".metadata.json") fs = none →
      (vp ++ ".metadata.json") ∉ dirsOf fs →
      LocalDisk.put fs p b = .ok fs' →
      LocalDisk.getMetadata fs' p = .ok none) := by
  constructor
  · intro fs p b fs' h
    unfold LocalDisk.putWithMetadata at h
    split at h
    · exact absurd h (by simp)
    · rename_i fs1 hput
      obtain ⟨vp, hv, hw⟩ := put_ok_elim hput
      rw [hv] at h
      have hfs' := saveMetadata_ok_elim h
      simp only [LocalDisk.getMetadata, hv, hfs', Option.map_none', lookupKey_fsInsert_self]
  · intro fs p vp b fs' hv hside hdir hput
    obtain ⟨vp2, hv2, hw⟩ := put_ok_elim hput
    have hvp : vp2 = vp := by
      have := hv2.symm.trans hv
      simpa using this
    subst hvp
    have hfs' : fs' = fsInsert fs vp2 (.bytes b) := fsWrite_some_eq hw
    have hnods : (vp2 ++ ".metadata.json") ∉ dirsOf fs' := by
      rw [hfs']
      intro hmem
      cases dirsOf_fsInsert_cases hmem with
      | inl hm => exact sidecar_not_mem_segAncestors vp2 hm
      | inr hm => exact hdir hm
    have hlk : lookupKey (vp2 ++ ".metadata.json") fs' = none := by
      rw [hfs', lookupKey_fsInsert_of_ne _ _ (sidecar_ne_self vp2)]
      exact hside
    simp only [LocalDisk.getMetadata, hv, hlk, if_neg hnods]

/-- Witness for C10: a concrete nil-metadata write followed by the metadata
read returning the all-empty value. -/
theorem C10_nil_metadata_sidecar_witness :
    LocalDisk.getMetadata
      [("m.txt.metadata.json", FileData.meta none), ("m.txt", FileData.bytes [1])] "m.txt" =
      .ok (some ⟨"", 0, 0, []⟩) :=
  C10_nil_metadata_sidecar.1 [] "m.txt" [1]
    [("m.txt.metadata.json", FileData.meta none), ("m.txt", FileData.bytes [1])] (by decide)

/-- C5 (code bug): after putting only `a/b/c.txt`, listing the non-empty
prefix `a` returns an entry whose path is the prefix root `a` itself (as a
directory), alongside `a/b` and `a/b/c.txt` — the walk skips only the
relative path `.`, which arises for the disk root alone, so the prefix root
is not excluded as the spec requires. -/
theorem C5_list_includes_prefix_root :
    LocalDisk.put [] "a/b/c.txt" [104, 105] = .ok [("a/b/c.txt", FileData.bytes [104, 105])] ∧
    LocalDisk.list [("a/b/c.txt", FileData.bytes [104, 105])] "a" =
      .ok [⟨"a", 0, 0, true, none⟩, ⟨"a/b", 0, 0, true, none⟩,
           ⟨"a/b/c.txt", 2, 0, false, none⟩] :=
  ⟨by decide, by decide⟩

/-- C7 (code bug): `setMetadata` on a path with no stored content fails with
`FileNotFound` on the local backend, but on the S3 backend the `NoSuchKey`
failure of the self-CopyObject is wrapped raw, without being translated to
`FileNotFound` as the spec requires. -/
theorem C7_setMetadata_missing_not_translated :
    S3Disk.setMetadata ⟨""⟩ [] "missing.txt" (some ⟨"text/plain", 0, 0, []⟩) =
      .error (.pathErr "setMetadata" "missing.txt" (.s3 .noSuchKey)) ∧
    LocalDisk.setMetadata [] "missing.txt" (some ⟨"text/plain", 0, 0, []⟩) =
      .error (.pathErr "setMetadata" "missing.txt" .fileNotFound) :=
  ⟨by decide, by decide⟩

/-- C2 counterexample: a prefix containing a null byte passes
`ValidatePrefix`, which performs no null-byte check, rather than failing with
an InvalidPath error as claimed. -/
theorem C2_counterexample : ValidatePrefix "a\u0000b" = .ok "a\u0000b" := by decide

/-- C2 amended: prefix validation behaves like path validation except that
the empty string is valid (yielding the empty normalized prefix) and that no
null-byte check is performed — exactly where `ValidatePath` fails with its
null-byte error, `ValidatePrefix` returns the normalized prefix instead. -/
theorem C2_prefix_validation_vs_path (s : String) :
    ValidatePrefix s =
      if s = "" then .ok ""
      else
        match ValidatePath s with
        | .ok r => .ok r
        | .error .nullByte => .ok (String.mk (trimLeadingSepsL (goCleanL s.data)))
        | .error e => .error e := by
  by_cases hs : s = ""
  · simp [ValidatePrefix, hs]
  · simp only [ValidatePrefix, ValidatePath, hs, if_false]
    split_ifs with hc hn
    · rfl
    · rfl
    · rfl

/-- C1 counterexample: the path `a/../b` contains the `../` pattern in its
pre-normalization textual form, yet `ValidatePath` accepts it and `put`
succeeds, writing to the cleaned path `b` — a storage side effect occurs
instead of the claimed InvalidPath failure. -/
theorem C1_counterexample :
    ValidatePath "a/../b" = .ok "b" ∧
    LocalDisk.put [] "a/../b" [1] = .ok [("b", FileData.bytes [1])] :=
  ⟨by decide, by decide⟩

/-- C1 amended: every operation taking a path, on both backends, fails with
an InvalidPath-classed `PathError` (and, returning no new state, leaves
storage unchanged) for every path whose cleaned form starts with a
parent-traversal segment or retains a `/../` occurrence; a path whose
interior `../` is removed by cleaning (such as `a/../b`) instead passes
validation and the operation proceeds on the normalized path. -/
theorem C1_traversal_rejected (p : String) (hp : p ≠ "") (ht : hasTraversal p = true)
    (fs : FS) (cfg : S3Config) (s3 : S3State) (b : List Nat) (m : Option Metadata)
    (q vq : String) (hq : ValidatePath q = .ok vq) :
    LocalDisk.put fs p b = .error (.pathErr "put" p (.validation .traversal)) ∧
    LocalDisk.get fs p = .error (.pathErr "get" p (.validation .traversal)) ∧
    LocalDisk.delete fs p = .error (.pathErr "delete" p (.validation .traversal)) ∧
    LocalDisk.putStream fs p b m = .error (.pathErr "putStream" p (.validation .traversal)) ∧
    LocalDisk.getStream fs p = .error (.pathErr "getStream" p (.validation .traversal)) ∧
    LocalDisk.exists fs p = .error (.pathErr "exists" p (.validation .traversal)) ∧
    LocalDisk.size fs p = .error (.pathErr "size" p (.validation .traversal)) ∧
    LocalDisk.copy fs p q = .error (.pathErr "copy" p (.validation .traversal)) ∧
    LocalDisk.copy fs q p = .error (.pathErr "copy" p (.validation .traversal)) ∧
    LocalDisk.move fs p q = .error (.pathErr "copy" p (.validation .traversal)) ∧
    LocalDisk.move fs q p = .error (.pathErr "copy" p (.validation .traversal)) ∧
    LocalDisk.putWithMetadata fs p b m = .error (.pathErr "put" p (.validation .traversal)) ∧
    LocalDisk.getMetadata fs p = .error (.pathErr "getMetadata" p (.validation .traversal)) ∧
    LocalDisk.setMetadata fs p m = .error (.pathErr "setMetadata" p (.validation .traversal)) ∧
    S3Disk.put cfg s3 p b = .error (.pathErr "put" p (.validation .traversal)) ∧
    S3Disk.get cfg s3 p = .error (.pathErr "get" p (.validation .traversal)) ∧
    S3Disk.delete cfg s3 p = .error (.pathErr "delete" p (.validation .traversal)) ∧
    S3Disk.putStream cfg s3 p b m = .error (.pathErr "putStream" p (.validation .traversal)) ∧
    S3Disk.getStream cfg s3 p = .error (.pathErr "getStream" p (.validation .traversal)) ∧
    S3Disk.exists cfg s3 p = .error (.pathErr "exists" p (.validation .traversal)) ∧
    S3Disk.size cfg s3 p = .error (.pathErr "size" p (.validation .traversal)) ∧
    S3Disk.copy cfg s3 p q = .error (.pathErr "copy" p (.validation .traversal)) ∧
    S3Disk.copy cfg s3 q p = .error (.pathErr "copy" p (.validation .traversal)) ∧
    S3Disk.move cfg s3 p q = .error (.pathErr "copy" p (.validation .traversal)) ∧
    S3Disk.move cfg s3 q p = .error (.pathErr "copy" p (.validation .traversal)) ∧
    S3Disk.putWithMetadata cfg s3 p b m =
      .error (.pathErr "putWithMetadata" p (.validation .traversal)) ∧
    S3Disk.getMetadata cfg s3 p = .error (.pathErr "getMetadata" p (.validation .traversal)) ∧
    S3Disk.setMetadata cfg s3 p m = .error (.pathErr "setMetadata" p (.validation .traversal)) := by
  have hv : ValidatePath p = .error .traversal := ValidatePath_of_traversal hp ht
  refine ⟨?_, ?_, ?_, ?_, ?_, ?_, ?_, ?_, ?_, ?_, ?_, ?_, ?_, ?_, ?_, ?_, ?_, ?_, ?_, ?_, ?_,
    ?_, ?_, ?_, ?_, ?_, ?_, ?_⟩ <;>
    simp [LocalDisk.put, LocalDisk.get, LocalDisk.delete, LocalDisk.putStream,
      LocalDisk.getStream, LocalDisk.exists, LocalDisk.size, LocalDisk.copy, LocalDisk.move,
      LocalDisk.putWithMetadata, LocalDisk.getMetadata, LocalDisk.setMetadata, S3Disk.put,
      S3Disk.get, S3Disk.delete, S3Disk.putStream, S3Disk.getStream, S3Disk.exists, S3Disk.size,
      S3Disk.copy, S3Disk.move, S3Disk.putWithMetadata, S3Disk.getMetadata, S3Disk.setMetadata,
      hv, hq]

/-- Witness for C1 at the path `../escape.txt` of the repository's own test. -/
theorem C1_traversal_rejected_witness :
    LocalDisk.put [] "../escape.txt" [1] =
      .error (.pathErr "put" "../escape.txt" (.validation .traversal)) :=
  (C1_traversal_rejected "../escape.txt" (by decide) (by decide) [] ⟨""⟩ [] [1] none
    "ok.txt" "ok.txt" (by decide)).1

/-- C6 counterexample: on the S3 backend, deleting a path with no stored
content silently succeeds (S3's DeleteObject reports no error for a missing
key and the code performs no not-found check), instead of failing with a
FileNotFound-classed error as claimed for every backend. -/
theorem C6_counterexample : S3Disk.delete ⟨""⟩ [] "missing.txt" = .ok [] := by decide

/-- C6 amended: on the local filesystem backend, deleting a valid path that
names neither a file nor a directory fails with `FileNotFound`, and a second
delete immediately after a successful one fails with `FileNotFound`; on the
S3 backend, delete always succeeds once the path validates, so deleting an
absent key is a silent success. -/
theorem C6_delete_missing (p vp : String) (hv : ValidatePath p = .ok vp)
    (h0 : vp ≠ "") (h1 : vp ≠ ".") :
    (∀ fs : FS, lookupKey vp fs = none → vp ∉ dirsOf fs →
      LocalDisk.delete fs p = .error (.pathErr "delete" p .fileNotFound)) ∧
    (∀ fs fs' : FS, vp ∉ dirsOf fs → LocalDisk.delete fs p = .ok fs' →
      LocalDisk.delete fs' p = .error (.pathErr "delete" p .fileNotFound)) ∧
    (∀ (cfg : S3Config) (s3 : S3State),
      S3Disk.delete cfg s3 p = .ok (s3.filter (fun e => e.1 ≠ S3Disk.buildKey cfg vp))) := by
  have hmiss : ∀ fs : FS, lookupKey vp fs = none → vp ∉ dirsOf fs →
      LocalDisk.delete fs p = .error (.pathErr "delete" p .fileNotFound) := by
    intro fs hlk hdir
    have hcond : ¬ (vp = "" ∨ vp = "." ∨ vp ∈ dirsOf fs) := by
      simp [h0, h1, hdir]
    simp only [LocalDisk.delete, hv, hlk, if_neg hcond]
  refine ⟨hmiss, ?_, ?_⟩
  · intro fs fs' hdir hdel
    unfold LocalDisk.delete at hdel
    split at hdel
    · exact absurd hdel (by simp)
    · rename_i vp2 hv2
      have hvp : vp2 = vp := by
        have := hv2.symm.trans hv
        simpa using this
      subst hvp
      split at hdel
      · rename_i fd hlk
        simp only [Except.ok.injEq] at hdel
        have hfs' : fs' = fsErase fs vp2 := hdel.symm
        have hlk' : lookupKey vp2 fs' = none := by
          rw [hfs']
          exact lookupKey_filter_self vp2 fs
        have hdir' : vp2 ∉ dirsOf fs' := by
          rw [hfs']
          intro hmem
          exact hdir (dirsOf_filter_subset hmem)
        exact hmiss fs' hlk' hdir'
      · split at hdel
        · exact absurd hdel (by simp)
        · exact absurd hdel (by simp)
  · intro cfg s3
    simp [S3Disk.delete, hv]

/-- Witness for C6: a concrete missing-path delete failing with FileNotFound
on the local backend. -/
theorem C6_delete_missing_witness :
    LocalDisk.delete [("other.txt", FileData.bytes [1])] "gone.txt" =
      .error (.pathErr "delete" "gone.txt" .fileNotFound) :=
  (C6_delete_missing "gone.txt" "gone.txt" (by decide) (by decide) (by decide)).1
    [("other.txt", FileData.bytes [1])] (by decide) (by decide)

/-- C8: a failing source-side `getMetadata` is never propagated by
`CopyBetweenDisks` — once both disks resolve and the source content is read,
the copy behaves exactly as a plain dispatched `put` of that content to the
destination backend, so the outcome depends only on resolving the destination
disk and on the destination write.  The source may be either backend behind
the `Disk` interface. -/
theorem C8_metadata_failure_swallowed (s : Storage) (a bDisk x y : String) (src : DiskState)
    (c : List Nat) (em : Err)
    (hA : Storage.getDisk s a = some src)
    (hg : Disk.get src x = .ok c)
    (hm : Disk.getMetadata src x = .error em) :
    Storage.CopyBetweenDisks s a bDisk x y =
      match Storage.getDisk s bDisk with
      | none => .error (.diskNotFound bDisk)
      | some dst =>
        match Disk.put dst y c with
        | .error e => .error e
        | .ok dst' => .ok (Storage.setDisk s bDisk dst') := by
  simp only [Storage.CopyBetweenDisks, hA, hg, hm]

/-- Witness for C8, across backends: a local source whose sidecar holds
unparseable bytes (so the metadata read fails) is still copied to an S3
destination, which receives the content via a plain put. -/
theorem C8_metadata_failure_swallowed_witness :
    Storage.CopyBetweenDisks
        [("A", DiskState.localDisk
            [("x", FileData.bytes [7]), ("x.metadata.json", FileData.bytes [9])]),
         ("B", DiskState.s3Disk ⟨""⟩ [])]
        "A" "B" "x" "y" =
      .ok [("B", DiskState.s3Disk ⟨""⟩ [("y", ⟨[7], "", []⟩)]),
           ("A", DiskState.localDisk
              [("x", FileData.bytes [7]), ("x.metadata.json", FileData.bytes [9])])] :=
  C8_metadata_failure_swallowed
    [("A", DiskState.localDisk
        [("x", FileData.bytes [7]), ("x.metadata.json", FileData.bytes [9])]),
     ("B", DiskState.s3Disk ⟨""⟩ [])]
    "A" "B" "x" "y"
    (DiskState.localDisk [("x", FileData.bytes [7]), ("x.metadata.json", FileData.bytes [9])])
    [7] (.pathErr "getMetadata" "x" .ioErr) (by decide) (by decide) (by decide)

/-- C4 counterexample: with the same registered disk as source and
destination, a successful `CopyBetweenDisks` can change the source content —
copying `y.metadata.json` (which holds bytes and has its own sidecar) to `y`
makes the destination's sidecar write overwrite the source file, so `get` at
the source path afterwards returns different bytes. -/
theorem C4_counterexample :
    Storage.CopyBetweenDisks
        [("d", DiskState.localDisk
            [("y.metadata.json", FileData.bytes [1]),
             ("y.metadata.json.metadata.json", FileData.meta (some ⟨"t", 0, 0, []⟩))])]
        "d" "d" "y.metadata.json" "y" =
      .ok [("d", DiskState.localDisk
             [("y.metadata.json", FileData.meta (some ⟨"t", 0, 0, []⟩)),
              ("y", FileData.bytes [1]),
              ("y.metadata.json.metadata.json", FileData.meta (some ⟨"t", 0, 0, []⟩))])] ∧
    Disk.get (DiskState.localDisk
        [("y.metadata.json", FileData.bytes [1]),
         ("y.metadata.json.metadata.json", FileData.meta (some ⟨"t", 0, 0, []⟩))])
      "y.metadata.json" = .ok [1] ∧
    Disk.get (DiskState.localDisk
        [("y.metadata.json", FileData.meta (some ⟨"t", 0, 0, []⟩)),
         ("y", FileData.bytes [1]),
         ("y.metadata.json.metadata.json", FileData.meta (some ⟨"t", 0, 0, []⟩))])
      "y.metadata.json" = .ok [1, 1, 116, 0, 0, 0] :=
  ⟨by decide, by decide, by decide⟩

/-- C4 amended: for distinct registered disks `a ≠ b`, after a successful
`CopyBetweenDisks(a, b, x, y)` the destination's `get(y)` returns exactly the
bytes the source's `get(x)` returned, and disk `a`'s entire backend state —
hence its content at `x` — is unchanged.  Source and destination range over
both backends behind the `Disk` interface. -/
theorem C4_cross_disk_copy (s : Storage) (a bDisk x y : String) (src : DiskState)
    (c : List Nat) (s' : Storage) (hab : a ≠ bDisk)
    (hA : Storage.getDisk s a = some src)
    (hg : Disk.get src x = .ok c)
    (hcopy : Storage.CopyBetweenDisks s a bDisk x y = .ok s') :
    Storage.getDisk s' a = some src ∧
    ∃ dst', Storage.getDisk s' bDisk = some dst' ∧ Disk.get dst' y = .ok c := by
  unfold Storage.CopyBetweenDisks at hcopy
  split at hcopy
  · exact absurd hcopy (by simp)
  · rename_i src0 heq0
    split at hcopy
    · exact absurd hcopy (by simp)
    · rename_i dst heqB
      split at hcopy
      · exact absurd hcopy (by simp)
      · rename_i c0 heqg
        have hsrc0 : src = src0 := by
          have := hA.symm.trans heq0
          simpa using this
        subst hsrc0
        have hc0 : c = c0 := by
          have := hg.symm.trans heqg
          simpa using this
        subst hc0
        have hfin : ∀ dst' : DiskState, Disk.get dst' y = .ok c →
            Storage.setDisk s bDisk dst' = s' →
            Storage.getDisk s' a = some src ∧
            ∃ d2, Storage.getDisk s' bDisk = some d2 ∧ Disk.get d2 y = .ok c := by
          intro dst' hget hs2
          rw [← hs2]
          refine ⟨?_, dst', getDisk_setDisk_self s bDisk dst', hget⟩
          rw [getDisk_setDisk_ne s dst' hab]
          exact hA
        split at hcopy
        · rename_i mv heqm
          cases mv with
          | none =>
            dsimp only at hcopy
            split at hcopy
            · exact absurd hcopy (by simp)
            · rename_i dst' heqput
              simp only [Except.ok.injEq] at hcopy
              exact hfin dst' (disk_put_ok_get heqput) hcopy
          | some mm =>
            dsimp only at hcopy
            split at hcopy
            · exact absurd hcopy (by simp)
            · rename_i dst' heqput
              simp only [Except.ok.injEq] at hcopy
              exact hfin dst' (disk_putWithMetadata_ok_get heqput) hcopy
        · rename_i ee heqm
          dsimp only at hcopy
          split at hcopy
          · exact absurd hcopy (by simp)
          · rename_i dst' heqput
            simp only [Except.ok.injEq] at hcopy
            exact hfin dst' (disk_put_ok_get heqput) hcopy

/-- Witness for C4 at two distinct disks of different backends: after a copy
of `x.txt` from the local disk A to `y.txt` on the S3 disk B, disk A is
untouched. -/
theorem C4_cross_disk_copy_witness :
    Storage.getDisk
        [("B", DiskState.s3Disk ⟨""⟩ [("y.txt", ⟨[7], "", []⟩)]),
         ("A", DiskState.localDisk [("x.txt", FileData.bytes [7])])] "A" =
      some (DiskState.localDisk [("x.txt", FileData.bytes [7])]) :=
  (C4_cross_disk_copy
    [("A", DiskState.localDisk [("x.txt", FileData.bytes [7])]),
     ("B", DiskState.s3Disk ⟨""⟩ [])]
    "A" "B" "x.txt" "y.txt" (DiskState.localDisk [("x.txt", FileData.bytes [7])]) [7]
    [("B", DiskState.s3Disk ⟨""⟩ [("y.txt", ⟨[7], "", []⟩)]),
     ("A", DiskState.localDisk [("x.txt", FileData.bytes [7])])]
    (by decide) (by decide) (by decide) (by decide)).1
